import Mathlib

set_option maxRecDepth 100000

set_option maxHeartbeats 4000000

/-! Shallow embedding of the grammafy LaTeX-to-plain-text converter.

The embedding follows the Python sources:
  - scr/classes.py       (Node, Source, Clean)
  - scr/grammafy.py      (process_document, handle_command, handle_math_mode)
  - scr/exceptions/__init__.py (built-in handlers, rule tables, interpret)
  - scr/exceptions/routines_custom.py (override tables)
  - scr/exceptions/sub_begin/begin_custom.py (override environment tables)

Text is represented as a list of characters; Python string positions become
Nat indices, and Python's -1 "not found" sentinel makes find results Int.
Python exceptions are modelled by an explicit error type threaded through a
hand-rolled state-plus-error monad; unbounded while loops take a fuel
parameter, and running out of fuel is a distinguished outcome. -/

abbrev Txt := List Char

/-- Convert a Lean string literal into the character-list text representation. -/
def str (s : String) : Txt := s.data

/-- The Python exception classes raised by the embedded code. -/
inductive PyErr where
  | valueError
  | attributeError
  | runtimeError
  | indexError
  deriving DecidableEq, Repr

/-- First index at which the pattern occurs in the list, scanning left to
right (the core of Python `str.find`). -/
def subFind (l p : Txt) : Option Nat :=
  match l with
  | [] => if p.isEmpty then some 0 else none
  | x :: t => if p.isPrefixOf (x :: t) then some 0 else (subFind t p).map (· + 1)

/-- Python `s.find(p, start)`: smallest position at or after `start` where
`p` occurs in `s`, or -1 when there is none. -/
def strFind (s p : Txt) (start : Nat) : Int :=
  match subFind (s.drop start) p with
  | some k => ((start + k : Nat) : Int)
  | none => -1

/-- Python whitespace for `str.lstrip` / `str.rstrip` (ASCII range). -/
def pyIsSpace (c : Char) : Bool :=
  c = ' ' || c = '\t' || c = '\n' || c = '\r' || c = '\x0b' || c = '\x0c'

/-- Python `str.splitlines` modelled for newline-terminated lines:
"a\nb" becomes ["a","b"], a trailing newline produces no extra line,
and the empty string has no lines. -/
def splitLines : Txt → List Txt
  | [] => []
  | c :: rest =>
    if c = '\n' then [] :: splitLines rest
    else
      match splitLines rest with
      | [] => [[c]]
      | l :: ls => (c :: l) :: ls

/-- A line whose first non-blank character is `%` (Python
`x.lstrip().startswith("%")` in `Node.__init__`). -/
def isCommentLine (l : Txt) : Bool :=
  (l.dropWhile pyIsSpace).head? = some '%'

/-- The tracked special characters, in the insertion order of the Python
`symbols` dictionary in `Node.__init__`. -/
def specials : List Char := ['\\', '{', '}', '$', '%', '~']

/-- `Node` from scr/classes.py: the full (comment-filtered) buffer `_text`,
the current read position `_index`, and the special-character position
cache `symbols`.  The `root` back-reference is represented by the position
of the node inside the `Source` stack below. -/
structure Node where
  textAll : Txt
  index : Nat
  symbols : List (Char × Int)
  deriving DecidableEq, Repr

/-- `Node.__init__`: filter out comment lines, rejoin with newlines and
append a final newline; position 0; every tracked character cached as -1. -/
def nodeInit (raw : Txt) : Node :=
  { textAll :=
      (List.intercalate ['\n'] ((splitLines raw).filter (fun l => !isCommentLine l)))
        ++ ['\n']
    index := 0
    symbols := specials.map (fun c => (c, -1)) }

/-- The `Node.text` property: the unread suffix of the buffer. -/
def Node.text (n : Node) : Txt := n.textAll.drop n.index

/-- The `Node.index` setter: moving backwards is clamped to end-of-buffer
(defensive, logged in the source); any other assignment is taken as is. -/
def Node.setIndex (n : Node) (i : Int) : Node :=
  if i < (n.index : Int) then { n with index := n.textAll.length }
  else { n with index := i.toNat }

/-- The cache-refresh loop at the top of the `Node.inter` property: every
symbol whose cached position is behind the current index is either dropped
(when it no longer occurs in the remaining text) or re-found. -/
def interUpdate (full : Txt) (idx : Nat) : List (Char × Int) → List (Char × Int)
  | [] => []
  | (c, v) :: rest =>
    if v < (idx : Int) then
      if (full.drop idx).contains c then
        (c, strFind full [c] idx) :: interUpdate full idx rest
      else interUpdate full idx rest
    else (c, v) :: interUpdate full idx rest

/-- Left fold computing the minimum of a list of Int with a seed
(Python `min` over the dictionary values). -/
def intMinList : Int → List Int → Int
  | a, [] => a
  | a, b :: r => intMinList (min a b) r

/-- The `Node.inter` property: refresh the cache, then return the distance
from the current index to the nearest cached occurrence, or -1 when the
cache dictionary has become empty.  Returns the result together with the
node carrying the updated cache. -/
def Node.inter (n : Node) : Int × Node :=
  let syms := interUpdate n.textAll n.index n.symbols
  let r : Int :=
    match syms with
    | [] => -1
    | (_, v) :: rest => intMinList v (rest.map (fun p => p.2)) - (n.index : Int)
  (r, { n with symbols := syms })

/-- `Node.move_index`: find the pattern at or after the current position and
set the position just past it, raising ValueError when it is absent. -/
def Node.moveIndex (n : Node) (pat : Txt) : Except PyErr Node :=
  let pos := strFind n.textAll pat n.index
  if pos = -1 then .error .valueError
  else .ok (n.setIndex (pos + pat.length))

instance : DecidableEq (Except PyErr Node) := fun a b =>
  match a, b with
  | .ok x, .ok y => decidable_of_iff (x = y) (by simp)
  | .error x, .error y => decidable_of_iff (x = y) (by simp)
  | .ok _, .error _ => isFalse (by simp)
  | .error _, .ok _ => isFalse (by simp)

example : nodeInit (str "a\n%c\nb") =
    Node.mk (str "a\nb\n") 0 (specials.map (fun c => (c, -1))) := by decide

example : strFind (str "abcabc") (str "bc") 2 = 4 := by decide

example : strFind (str "abcabc") (str "zz") 0 = -1 := by decide

example : (nodeInit (str "x%y")).moveIndex (str "%") =
    .ok (Node.mk (str "x%y\n") 2 (specials.map (fun c => (c, -1)))) := by decide

/-- Handler identifiers naming each built-in handler function of
scr/exceptions/__init__.py; the identifiers are mapped back to the actual
handler implementations by `applyH` below.  The override functions
`_print_curly` / `_print_square_curly` in routines_custom.py are verbatim
copies of the built-ins, so they share identifiers. -/
inductive HId where
  | reprint | curly | curlyCurly | color | footnote | includeCmd | printCurly
  | printSquareCurly | beginCmd | endCmd | newLine | squareEquation
  | roundEquation | apostrofe | tilde
  deriving DecidableEq, Repr

/-- Handler identifiers for the environment handlers of begin_custom.py. -/
inductive BId where
  | title | thm | equation | skipOptionalBrackets
  deriving DecidableEq, Repr

/-- The conversion state: the `Source` stack of nodes, the `Clean`
accumulator (fragment list plus unknown-command set), the current command,
and the external collaborators (`fs` maps an include path to its contents;
`folder` is `Environment.folder_path`). -/
structure St where
  source : List Node
  cleanFrags : List Txt
  aggro : List Txt
  command : Txt
  fs : List (Txt × Txt)
  folder : Txt
  deriving DecidableEq, Repr

/-- A fault: either a Python exception, or exhaustion of the fuel that
bounds the embedded while loops. -/
inductive Fault where
  | py (e : PyErr)
  | fuel
  deriving DecidableEq, Repr

/-- Outcome of an embedded computation: a value or a fault, with the state
as it stood at that point (Python exceptions do not roll back state). -/
inductive Res (α : Type) where
  | ok (a : α) (s : St)
  | err (e : Fault) (s : St)
  deriving DecidableEq, Repr

def M (α : Type) : Type := St → Res α

def mpure {α : Type} (a : α) : M α := fun s => .ok a s

def mbind {α β : Type} (x : M α) (f : α → M β) : M β := fun s =>
  match x s with
  | .ok a s' => f a s'
  | .err e s' => .err e s'

instance : Monad M where
  pure := mpure
  bind := mbind

def mthrow {α : Type} (e : Fault) : M α := fun s => .err e s

def mget : M St := fun s => .ok s s

def mset (s' : St) : M Unit := fun _ => .ok () s'

def mmodify (f : St → St) : M Unit := fun s => .ok () (f s)

def runM {α : Type} (m : M α) (s : St) : Res α := m s

/-- Python `try`/`except` over the listed exception kinds (fuel exhaustion
is never caught). -/
def pyTry {α : Type} (body : M α) (catchOn : PyErr → Bool) (hdl : PyErr → M α) : M α :=
  fun s =>
    match body s with
    | .ok a s' => .ok a s'
    | .err (.py e) s' => if catchOn e then hdl e s' else .err (.py e) s'
    | .err .fuel s' => .err .fuel s'

/-- `Source.head` access: AttributeError when the stack is exhausted. -/
def srcHeadM : M Node := do
  let st ← mget
  match st.source with
  | [] => mthrow (.py .attributeError)
  | n :: _ => pure n

def srcSetHead (n : Node) : M Unit := do
  let st ← mget
  match st.source with
  | [] => mthrow (.py .attributeError)
  | _ :: rest => mset { st with source := n :: rest }

/-- The proxied `Source.text` property. -/
def srcTextM : M Txt := do
  let n ← srcHeadM
  pure n.text

/-- The proxied `Source.index` setter (always through `Node.setIndex`). -/
def srcIndexSet (i : Int) : M Unit := do
  let n ← srcHeadM
  srcSetHead (n.setIndex i)

/-- `env.source.index += k`. -/
def srcIndexAdd (k : Int) : M Unit := do
  let n ← srcHeadM
  srcSetHead (n.setIndex ((n.index : Int) + k))

/-- The proxied `Source.inter` property (updates the head's cache). -/
def srcInterM : M Int := do
  let n ← srcHeadM
  let p := n.inter
  srcSetHead p.2
  pure p.1

/-- The proxied `Source.move_index`. -/
def srcMoveIndex (pat : Txt) : M Unit := do
  let n ← srcHeadM
  match n.moveIndex pat with
  | .ok n' => srcSetHead n'
  | .error e => mthrow (.py e)

/-- `Source.add`: push a new node over the text; the previous head becomes
the new node's root (represented by stack order). -/
def srcAdd (t : Txt) : M Unit := do
  let st ← mget
  mset { st with source := nodeInit t :: st.source }

/-- `Source.pop`: RuntimeError on an empty stack; popping the last node
just leaves the stack empty (the source only logs a warning there). -/
def srcPop : M Unit := do
  let st ← mget
  match st.source with
  | [] => mthrow (.py .runtimeError)
  | _ :: rest => mset { st with source := rest }

/-- The Python expression `env.source.root.index += k` used by `_footnote`
and `_include`: class `Source` in scr/classes.py defines no attribute
`root` (only `Node` does), so the attribute lookup raises AttributeError
before any index assignment can happen. -/
def srcRootIndexAdd (_k : Int) : M Unit := mthrow (.py .attributeError)

/-- `Clean.add`. -/
def cleanAdd (t : Txt) : M Unit :=
  mmodify fun st => { st with cleanFrags := st.cleanFrags ++ [t] }

/-- `Clean.aggro.add`: Python set insertion, modelled as a duplicate-free
list in first-insertion order. -/
def aggroInsert (l : List Txt) (x : Txt) : List Txt :=
  if l.contains x then l else l ++ [x]

def aggroAdd (x : Txt) : M Unit :=
  mmodify fun st => { st with aggro := aggroInsert st.aggro x }

def setCommand (c : Txt) : M Unit :=
  mmodify fun st => { st with command := c }

/-- The `Clean.text` property: the joined output string. -/
def cleanText (st : St) : Txt := st.cleanFrags.flatten

/-- Python slice `t[1:i]` where `i` may be -1 or another negative index
(counted from the end of the string, clamped at 0). -/
def pySlice1 (t : Txt) (i : Int) : Txt :=
  let e : Int := if i < 0 then (t.length : Int) + i else i
  (t.take e.toNat).drop 1

/-- Python slice `t[:i]` where `i` may be negative. -/
def pySliceTo (t : Txt) (i : Int) : Txt :=
  let e : Int := if i < 0 then (t.length : Int) + i else i
  t.take e.toNat

/-- Python `str.rstrip()`. -/
def rstrip (t : Txt) : Txt := (t.reverse.dropWhile pyIsSpace).reverse

/-- Python `in` on strings: the pattern occurs somewhere in the text. -/
def containsSub (t pat : Txt) : Bool := strFind t pat 0 ≠ -1

def lookupTab {β : Type} (tab : List (Txt × β)) (k : Txt) : Option β :=
  match tab with
  | [] => none
  | (a, b) :: rest => if a = k then some b else lookupTab rest k

def fsLookup (fs : List (Txt × Txt)) (p : Txt) : Option Txt :=
  match fs with
  | [] => none
  | (k, v) :: rest => if k = p then some v else fsLookup rest p

/-- `_reprint`: append the command itself to the output. -/
def hReprint : M Unit := do
  let st ← mget
  cleanAdd st.command

/-- `_curly`: move past the next closing curly bracket. -/
def hCurly : M Unit := srcMoveIndex ['}']

/-- `_curly_curly`: move past two consecutive closing curly brackets. -/
def hCurlyCurly : M Unit := do
  srcMoveIndex ['}']
  srcMoveIndex ['}']

/-- `_color`: emit "Color:" and the upper-cased argument, then advance past
the closing brace. -/
def hColor : M Unit := do
  cleanAdd (str "Color:")
  let t ← srcTextM
  let i := strFind t ['}'] 0
  cleanAdd ((pySlice1 t i).map Char.toUpper)
  srcIndexAdd (i + 1)

/-- The nested-brace counting loop of `_footnote` (`while i >= j and j > 0`),
returning the final `(i, j)`.  The fuel bounds the iterations; the loop
always exits within `t.length + 1` steps because `j` strictly increases
while it continues. -/
def footnoteScan (t : Txt) : Nat → Int → Int → Int × Int
  | 0, i, j => (i, j)
  | fuel + 1, i, j =>
    if i ≥ j ∧ j > 0 then
      footnoteScan t fuel (strFind t ['}'] i.toNat + 1) (strFind t ['{'] j.toNat + 1)
    else (i, j)

/-- `_footnote`: find the end of the nested-brace argument, push the
wrapped footnote text onto the source stack, then attempt
`env.source.root.index += i` (which raises AttributeError, see
`srcRootIndexAdd`). -/
def hFootnote : M Unit := do
  let t ← srcTextM
  let p := footnoteScan t (t.length + 1) 1 1
  srcAdd (str "(FOOTNOTE: " ++ pySlice1 t (p.1 - 1) ++ [')'])
  srcRootIndexAdd p.1

/-- `_include`: extract the filename, skip .bbl files, append .tex when
missing, resolve against the folder path, and either push the file's
contents or emit a diagnostic.  Both the missing-file branch and the
success branch then attempt `env.source.root.index += i + 1`, which raises
AttributeError; the `except IOError` clause around the body never fires in
this model (the filesystem map read cannot fail), and an AttributeError is
not an IOError, so it propagates. -/
def hInclude : M Unit := do
  let t ← srcTextM
  let i := strFind t ['}'] 0
  let includePathStr := pySlice1 t i
  if (str ".bbl").isSuffixOf includePathStr then
    srcIndexAdd (i + 1)
  else do
    let p2 := if (str ".tex").isSuffixOf includePathStr then includePathStr
              else includePathStr ++ str ".tex"
    let st ← mget
    let includePath := st.folder ++ '/' :: p2
    match fsLookup st.fs includePath with
    | none => do
        srcRootIndexAdd (i + 1)
        cleanAdd (str "[FILE NOT FOUND: " ++ includePathStr ++ [']'])
    | some content => do
        srcAdd content
        srcRootIndexAdd (i + 1)

/-- `_print_curly`: emit the placeholder and move past the closing brace. -/
def hPrintCurly : M Unit := do
  cleanAdd (str "[_]")
  srcMoveIndex ['}']

/-- `_print_square_curly`: emit the placeholder, consume an optional
square-bracketed argument, then the curly-bracketed one. -/
def hPrintSquareCurly : M Unit := do
  cleanAdd (str "[_]")
  let t ← srcTextM
  match t with
  | [] => mthrow (.py .indexError)
  | c :: _ => do
    if c = '[' then srcMoveIndex [']'] else pure ()
    srcMoveIndex ['}']

/-- `_new_line`: emit a literal newline. -/
def hNewLine : M Unit := do
  cleanAdd ['\n']
  srcIndexAdd 1

/-- `_square_equation`: placeholder for a `\[ ... \]` display equation,
re-emitting a trailing punctuation mark; `[-1]` on an empty stripped slice
raises IndexError. -/
def hSquareEquation : M Unit := do
  let t ← srcTextM
  let i := strFind t (str "\\]") 0
  cleanAdd (str "[_]")
  match (rstrip (pySliceTo t i)).getLast? with
  | none => mthrow (.py .indexError)
  | some c => do
    if c = ',' ∨ c = ';' ∨ c = '.' then cleanAdd [c] else pure ()
    srcMoveIndex (str "\\]")

/-- `_round_equation`: placeholder for a `\( ... \)` inline equation. -/
def hRoundEquation : M Unit := do
  let t ← srcTextM
  let i := strFind t (str "\\)") 0
  cleanAdd (str "[_]")
  match (rstrip (pySliceTo t i)).getLast? with
  | none => mthrow (.py .indexError)
  | some c => do
    if c = ',' ∨ c = ';' ∨ c = '.' then cleanAdd [c] else pure ()
    srcMoveIndex (str "\\)")

/-- `_apostrofe`: skip the following letter when it is a vowel. -/
def hApostrofe : M Unit := do
  let t ← srcTextM
  match t.get? 1 with
  | none => mthrow (.py .indexError)
  | some c =>
    if c = 'a' ∨ c = 'e' ∨ c = 'i' ∨ c = 'o' ∨ c = 'u' then srcIndexAdd 1
    else pure ()

/-- `_tilde`: emit a literal tilde. -/
def hTilde : M Unit := do
  cleanAdd ['~']
  srcIndexAdd 1

/-- Python `str.title`, modelled for ASCII text (used by `_title` in
begin_custom.py): uppercase a letter that follows a non-letter, lowercase
the other letters. -/
def titleCase (t : Txt) : Txt :=
  (t.foldl
    (fun (acc : Txt × Bool) c =>
      if c.isAlpha then
        (acc.1 ++ [if acc.2 then c.toLower else c.toUpper], true)
      else (acc.1 ++ [c], false))
    ([], false)).1

/-- `_title` from begin_custom.py. -/
def bTitle : M Unit := do
  let st ← mget
  cleanAdd (titleCase st.command ++ ['.'])

/-- `_thm` from begin_custom.py. -/
def bThm : M Unit := cleanAdd (str "Theorem.")

/-- `_equation` from begin_custom.py: placeholder for the whole
environment body up to its `\end`, re-emitting trailing punctuation. -/
def bEquation : M Unit := do
  cleanAdd (str "[_]")
  let st ← mget
  let t ← srcTextM
  let pat := str "\\end" ++ '{' :: (st.command ++ ['}'])
  let i := strFind t pat 0
  match (rstrip (pySliceTo t (i - 1))).getLast? with
  | some c => do
    if i > 0 ∧ (c = ',' ∨ c = ';' ∨ c = '.') then cleanAdd [c] else pure ()
    srcMoveIndex pat
  | none => srcMoveIndex pat

/-- `_skip_optional_brackets` from begin_custom.py. -/
def bSkipOptionalBrackets : M Unit := do
  let t ← srcTextM
  match t with
  | '[' :: _ => pyTry (srcMoveIndex [']']) (fun e => e = .valueError) (fun _ => pure ())
  | _ => pure ()

/-- `void_c` from begin_custom.py (transparent environments). -/
def beginVoidC : List Txt := [str "quote"]

/-- `dic_commands_c` from begin_custom.py (override environment handlers). -/
def beginDicC : List (Txt × BId) :=
  [(str "assumption", .title), (str "example", .title), (str "exercise", .title),
   (str "thm", .thm), (str "tabularx", .equation), (str "tcolorbox", .skipOptionalBrackets)]

def applyB : BId → M Unit
  | .title => bTitle
  | .thm => bThm
  | .equation => bEquation
  | .skipOptionalBrackets => bSkipOptionalBrackets

/-- Modelled from the spec: the built-in environment dispatcher
`scr/exceptions/sub_begin/__init__.py` is code of this repository that is
not under src/ — only its override tables (begin_custom.py) are.  Per spec
section 4.4 the extracted environment name is dispatched through the
environment rule tables with override priority, and an unmatched
environment's entire body is dropped up to the matching `\end` terminator
while the name is recorded as unknown.  The missing built-in environment
layer is modelled as empty. -/
def subBeginInterpret : M Unit := do
  let st ← mget
  if beginVoidC.contains st.command then pure ()
  else
    match lookupTab beginDicC st.command with
    | some b => applyB b
    | none => do
        aggroAdd st.command
        srcMoveIndex (str "\\end" ++ '{' :: (st.command ++ ['}']))

/-- Modelled from the spec: the `end` environment dispatcher
`scr/exceptions/sub_end` is entirely absent from src/.  The spec only says
that `end` dispatches the extracted name through its table and scanning
resumes, specifying no output for it, so it is modelled as a no-op. -/
def subEndInterpret : M Unit := pure ()

/-- `_begin`: extract the environment name, advance past the brace, then
dispatch through the environment interpreter. -/
def hBegin : M Unit := do
  let t ← srcTextM
  let i := strFind t ['}'] 0
  setCommand (pySlice1 t i)
  srcMoveIndex ['}']
  subBeginInterpret

/-- `_end`: extract the environment name, advance past the brace, then
dispatch through the end interpreter. -/
def hEnd : M Unit := do
  let t ← srcTextM
  let i := strFind t ['}'] 0
  setCommand (pySlice1 t i)
  srcMoveIndex ['}']
  subEndInterpret

def applyH : HId → M Unit
  | .reprint => hReprint
  | .curly => hCurly
  | .curlyCurly => hCurlyCurly
  | .color => hColor
  | .footnote => hFootnote
  | .includeCmd => hInclude
  | .printCurly => hPrintCurly
  | .printSquareCurly => hPrintSquareCurly
  | .beginCmd => hBegin
  | .endCmd => hEnd
  | .newLine => hNewLine
  | .squareEquation => hSquareEquation
  | .roundEquation => hRoundEquation
  | .apostrofe => hApostrofe
  | .tilde => hTilde

/-- The built-in transparent-command set `void`. -/
def void : List Txt :=
  [str "centering", str "small", str "large", str "Large", str "newpage",
   str "textbf", str "textit", str "emph", str "maketitle", str "tableofcontents",
   str "footnotesize", str "selectfont", str "author", str "title", str "date",
   str "Huge", str "huge", str "underline", str "chapter", str "section",
   str "subsection", str "subsubsection", str "section*", str "subsection*",
   str "subsubsection*", str "text", str "bbox", str "clearpage", str "appendix",
   str "p", str "S", str "compat", str "bf", str "em", str "printbibliography",
   str "bigskip", str "mbox", str "preprint", str "affiliation", str "noindent",
   str "texorpdfstring", str "it", str "address", str "thanks", str "textsc",
   str "texttt"]

/-- The override transparent-command set `void_c` from routines_custom.py. -/
def void_c : List Txt :=
  [str "marker", str "bookmark", str "LARGE", str "normalsize", str "bfseries",
   str "nocite", str "rule", str "vfill"]

/-- The built-in command table `dic_commands`. -/
def dic_commands : List (Txt × HId) :=
  [(str "addchap", .curly), (str "addsec", .curly), (str "begin", .beginCmd),
   (str "bibliography", .curly), (str "bibliographystyle", .curly),
   (str "chaptermark", .curly), (str "cite", .printSquareCurly),
   (str "color", .color), (str "cref", .printCurly), (str "Cref", .printCurly),
   (str "email", .curly), (str "end", .endCmd), (str "eqref", .printCurly),
   (str "fontfamily", .curly), (str "footnote", .footnote), (str "hspace", .curly),
   (str "include", .includeCmd), (str "includegraphics", .curly),
   (str "input", .includeCmd), (str "label", .curly), (str "pagenumbering", .curly),
   (str "pagestyle", .curly), (str "ref", .printCurly),
   (str "renewcommand", .curlyCurly), (str "setlength", .curlyCurly),
   (str "thispagestyle", .curly), (str "vspace", .curly),
   (str "&", .reprint), (str "%", .reprint), (str "#", .reprint)]

/-- The override command table `dic_commands_c` from routines_custom.py. -/
def dic_commands_c : List (Txt × HId) :=
  [(str "citep", .printCurly), (str "eqrefp", .printCurly),
   (str "refp", .printCurly), (str "parencite", .printSquareCurly)]

/-- The `special_commands` table for the empty-command-name branch. -/
def special_commands : List (Txt × HId) :=
  [([ '[' ], .squareEquation), ([ '(' ], .roundEquation),
   ([ '"' ], .apostrofe), ([ '\x27' ], .apostrofe),
   ([ '\\' ], .newLine), ([ '\n' ], .newLine), ([ '~' ], .tilde)]

/-- The inner brace-matching loop of the generic fallback in `interpret`:
while the next opening-bracket position `i` comes strictly before the next
closing-bracket position `j` (and exists), advance both to the following
occurrence; returns the final `j`.  The fuel bounds the iterations; the
loop always exits within `t.length + 1` steps because `j` strictly
increases while it continues. -/
def braceInner (t : Txt) (o c : Char) : Nat → Int → Int → Int
  | 0, _, j => j
  | fuel + 1, i, j =>
    if 0 < i ∧ i < j then
      braceInner t o c fuel (strFind t [o] (i.toNat + 1)) (strFind t [c] (j.toNat + 1))
    else j

/-- The cursor advance performed by one `{`-run of the generic
bracket-skip fallback: `j + 1` for the final closing-brace position `j`. -/
def fallbackSkipCurly (t : Txt) : Int :=
  braceInner t '{' '}' (t.length + 1) (strFind t ['{'] 1) (strFind t ['}'] 1) + 1

/-- The cursor advance performed by one `[`-run of the generic
bracket-skip fallback. -/
def fallbackSkipSquare (t : Txt) : Int :=
  braceInner t '[' ']' (t.length + 1) (strFind t ['['] 1) (strFind t [']'] 1) + 1

/-- The `while env.source.text[0] in ["{", "["]` loop of the generic
fallback in `interpret`; indexing an empty remainder raises IndexError. -/
def fallbackLoop : Nat → M Unit
  | 0 => mthrow .fuel
  | fuel + 1 => do
    let t ← srcTextM
    match t with
    | [] => mthrow (.py .indexError)
    | c :: _ =>
      if c = '{' then do
        srcIndexAdd (fallbackSkipCurly t)
        fallbackLoop fuel
      else if c = '[' then do
        srcIndexAdd (fallbackSkipSquare t)
        fallbackLoop fuel
      else pure ()

/-- How `interpret` resolves a non-empty command name. -/
inductive DispatchR where
  | noop
  | run (h : HId)
  | fallthrough
  deriving DecidableEq, Repr

/-- The resolution chain at the top of `interpret`: the two no-op sets
first (`env.command in void or env.command in void_c` — a pass), then the
override command map, then the built-in command map, and otherwise the
generic bracket-skip fallback. -/
def codeResolve (cmd : Txt) : DispatchR :=
  if void.contains cmd || void_c.contains cmd then .noop
  else
    match lookupTab dic_commands_c cmd with
    | some h => .run h
    | none =>
      match lookupTab dic_commands cmd with
      | some h => .run h
      | none => .fallthrough

/-- `interpret` from scr/exceptions/__init__.py. -/
def interpretCmd (fuel : Nat) : M Unit := do
  let st ← mget
  if st.command ≠ [] then
    match codeResolve st.command with
    | .noop => pure ()
    | .run h => applyH h
    | .fallthrough => do
        fallbackLoop fuel
        aggroAdd st.command
  else do
    let t ← srcTextM
    match t with
    | [] => mthrow (.py .indexError)
    | c :: _ => do
      setCommand [c]
      match lookupTab special_commands [c] with
      | some h => applyH h
      | none => do
        cleanAdd [' ']
        srcIndexAdd 1

/-- `COMMAND_TERMINATORS` from scr/grammafy.py. -/
def COMMAND_TERMINATORS : List Char :=
  [' ', '{', '}', '.', ',', ':', ';', '[', ']', '(', ')', '$', '\\', '\n',
   '"', '\x27', '~']

/-- Python `min` over a list of candidate positions. -/
def intMin? : List Int → Option Int
  | [] => none
  | a :: r => some (intMinList a r)

/-- The fuel-independent first half of `handle_command`: find the nearest
terminator after the backslash; with no terminator (degenerate input) skip
one character and report `none`, else record the command name, advance
past it and report the terminator position for the dispatch step. -/
def handleCommandPre : M (Option Int) := do
  let t ← srcTextM
  let ps := (COMMAND_TERMINATORS.map (fun c => strFind t [c] 1)).filter (fun p => 0 < p)
  match intMin? ps with
  | none => do
      srcIndexAdd 1
      pure none
  | some i => do
      setCommand (pySlice1 t i)
      srcIndexAdd i
      pure (some i)

/-- `handle_command` from scr/grammafy.py: extract the command name, then
dispatch through `interpret`. -/
def handleCommand (fuel : Nat) : M Unit := do
  let r ← handleCommandPre
  match r with
  | none => pure ()
  | some _ => interpretCmd fuel

/-- `handle_math_mode` from scr/grammafy.py: emit the placeholder, then
advance past the matching `$` or `$$`, treating an unclosed formula as a
logged warning (the ValueError is caught and scanning continues). -/
def handleMathMode : M Unit := do
  cleanAdd (str "[_]")
  srcIndexAdd 1
  let t ← srcTextM
  if t.head? = some '$' then
    pyTry (srcMoveIndex (str "$$")) (fun e => e = .valueError) (fun _ => pure ())
  else
    pyTry (srcMoveIndex (str "$")) (fun e => e = .valueError) (fun _ => pure ())

/-- Outcome of the fuel-independent first half of one loop iteration. -/
inductive ScanStep where
  | stop
  | popped
  | dispatch (c : Char)
  deriving DecidableEq, Repr

/-- The branch of one loop iteration on the result of the `inter` query:
when no special character remains (-1), append all remaining text and pop
the frame; otherwise append the text before the special character,
advance to it, and report it for dispatch. -/
def scanPreCont (ni : Int) : M ScanStep :=
  if ni = -1 then do
    let t ← srcTextM
    cleanAdd t
    srcPop
    pure .popped
  else do
    let t ← srcTextM
    cleanAdd (pySliceTo t ni)
    srcIndexAdd ni
    let t2 ← srcTextM
    match t2 with
    | [] => mthrow (.py .indexError)
    | c :: _ => pure (.dispatch c)

/-- The fuel-independent first half of one iteration of the main parsing
loop: check the loop guard `while env.source.head` (stop on an empty
stack), query `inter`, then continue with `scanPreCont`. -/
def scanPre : M ScanStep := do
  let st ← mget
  match st.source with
  | [] => pure .stop
  | _ :: _ => do
    let ni ← srcInterM
    scanPreCont ni

/-- The `match char:` statement of `process_document`: branch on the
special character found. -/
def dispatchChar (fuel : Nat) (c : Char) : M Unit :=
  if c = '\\' then handleCommand fuel
  else if c = '$' then handleMathMode
  else if c = '%' then srcMoveIndex ['\n']
  else if c = '{' ∨ c = '}' then srcIndexAdd 1
  else if c = '~' then do
    cleanAdd [' ']
    srcIndexAdd 1
  else srcIndexAdd 1

/-- The second half of one loop iteration: dispatch on the reported
special character; report whether an iteration ran. -/
def scanIterCont (fuel : Nat) (step : ScanStep) : M Bool :=
  match step with
  | .stop => pure false
  | .popped => pure true
  | .dispatch c => do
      dispatchChar fuel c
      pure true

/-- One iteration of the main parsing loop of `process_document`; returns
false when the loop guard fails (empty stack) and no iteration ran. -/
def scanIter (fuel : Nat) : M Bool := do
  let step ← scanPre
  scanIterCont fuel step

/-- The main parsing loop of `process_document`, with fuel bounding the
number of iterations. -/
def mainLoop : Nat → M Unit
  | 0 => mthrow .fuel
  | fuel + 1 => do
    let c ← scanIter fuel
    if c then mainLoop fuel else pure ()

/-- The preamble step of `process_document`: when `\begin{document}`
occurs in the head buffer, advance past it (a ValueError is caught and
only logged); otherwise process the entire file. -/
def skipPreamble : M Unit := do
  let st ← mget
  match st.source with
  | [] => mthrow (.py .attributeError)
  | n :: _ =>
    if strFind n.textAll (str "\\begin{document}") 0 = -1 then pure ()
    else pyTry (srcMoveIndex (str "\\begin{document}")) (fun e => e = .valueError)
           (fun _ => pure ())

/-- `process_document`: skip the preamble, then run the main loop. -/
def processDocument (fuel : Nat) : M Unit := do
  skipPreamble
  mainLoop fuel

/-- The state right after `Environment.__init__`: one node over the raw
document, empty output, empty diagnostic set, empty current command. -/
def initSt (raw : Txt) (fs : List (Txt × Txt)) (folder : Txt) : St :=
  { source := [nodeInit raw], cleanFrags := [], aggro := [], command := [],
    fs := fs, folder := folder }

/-- Run the whole conversion core on a raw document. -/
def processRun (fuel : Nat) (raw : Txt) (fs : List (Txt × Txt)) (folder : Txt) : Res Unit :=
  runM (processDocument fuel) (initSt raw fs folder)

def resErr? {α : Type} : Res α → Option Fault
  | .ok _ _ => none
  | .err e _ => some e

def resSt {α : Type} : Res α → St
  | .ok _ s => s
  | .err _ s => s

/-- Whether the run finished normally. -/
def resOk {α : Type} : Res α → Bool
  | .ok _ _ => true
  | .err _ _ => false

theorem subFind_char_none_iff (c : Char) (l : Txt) : subFind l [c] = none ↔ c ∉ l := by
  induction l with
  | nil => simp [subFind]
  | cons x t ih =>
    have hpre : ([c].isPrefixOf (x :: t)) = (c == x) := by
      simp [List.isPrefixOf]
    by_cases h : c = x
    · subst h
      simp [subFind, hpre]
    · have hb : (c == x) = false := by simp [h]
      simp [subFind, hpre, hb, ih, h]

theorem strFind_char_neg_iff (s : Txt) (c : Char) (start : Nat) :
    strFind s [c] start = -1 ↔ c ∉ s.drop start := by
  rw [← subFind_char_none_iff c (s.drop start)]
  unfold strFind
  cases h : subFind (s.drop start) [c] with
  | none => simp
  | some k =>
    simp only [iff_false, ne_eq, reduceCtorEq]

theorem drop_eq_cons_of_get? (s : Txt) (k : Nat) (c : Char)
    (h : s.get? k = some c) : s.drop k = c :: s.drop (k + 1) := by
  induction s generalizing k with
  | nil => simp at h
  | cons x t ih =>
    cases k with
    | zero =>
      simp only [List.get?_cons_zero, Option.some.injEq] at h
      simp [h]
    | succ k =>
      simp only [List.get?_cons_succ] at h
      simpa using ih k h

theorem strFind_char_at (s : Txt) (c : Char) (k : Nat) (h : s.get? k = some c) :
    strFind s [c] k = k := by
  unfold strFind
  rw [drop_eq_cons_of_get? s k c h]
  simp [subFind, List.isPrefixOf]

theorem strFind_char_step (s : Txt) (c : Char) (k : Nat) (h : s.get? k ≠ some c) :
    strFind s [c] k = strFind s [c] (k + 1) := by
  rcases hk : s.get? k with _ | x
  · have hlen : s.length ≤ k := List.get?_eq_none.mp hk
    unfold strFind
    rw [List.drop_eq_nil_of_le hlen, List.drop_eq_nil_of_le (by omega)]
    simp [subFind]
  · have hxc : (c == x) = false := by
      simp only [beq_eq_false_iff_ne, ne_eq]
      intro e
      exact h (by rw [hk, e])
    unfold strFind
    rw [drop_eq_cons_of_get? s k x hk]
    simp only [subFind, List.isPrefixOf, hxc, Bool.false_and, if_neg (by simp : ¬(false = true))]
    cases h2 : subFind (s.drop (k + 1)) [c] with
    | none => simp [h2]
    | some m =>
      simp only [h2, Option.map_some']
      omega

theorem strFind_char_congr (s : Txt) (c : Char) (d : Nat) :
    ∀ a : Nat, (∀ m, a ≤ m → m < a + d → s.get? m ≠ some c) →
    strFind s [c] a = strFind s [c] (a + d) := by
  induction d with
  | zero => intro a _; rfl
  | succ d ih =>
    intro a h
    rw [strFind_char_step s c a (h a (le_refl a) (by omega))]
    rw [ih (a + 1) (fun m h1 h2 => h m (by omega) (by omega))]
    congr 1
    omega

theorem strFind_char_ge (s : Txt) (c : Char) (k : Nat) :
    strFind s [c] k = -1 ∨ (k : Int) ≤ strFind s [c] k := by
  unfold strFind
  cases subFind (s.drop k) [c] with
  | none => left; rfl
  | some m => right; simp

/-- C4: for every cursor and every assignment to its position (through the
`Node.index` setter), the position never decreases (given the basic
well-formedness `index ≤ length` that the setter itself maintains), a
strictly smaller assignment is clamped to end-of-buffer, and every other
assignment sets exactly the requested position. -/
theorem c4_index_monotone_clamp (n : Node) (i : Int)
    (hwf : n.index ≤ n.textAll.length) :
    n.index ≤ (n.setIndex i).index
    ∧ (i < (n.index : Int) → (n.setIndex i).index = n.textAll.length)
    ∧ ((n.index : Int) ≤ i → ((n.setIndex i).index : Int) = i) := by
  unfold Node.setIndex
  by_cases h : i < (n.index : Int)
  · rw [if_pos h]
    exact ⟨hwf, fun _ => rfl, fun h2 => absurd h (by omega)⟩
  · rw [if_neg h]
    refine ⟨by simp; omega, fun h2 => absurd h2 h, fun h2 => by simp; omega⟩

theorem c4_witness :
    (Node.mk (str "ab\n") 1 []).index ≤ ((Node.mk (str "ab\n") 1 []).setIndex 2).index
    ∧ ((2 : Int) < ((Node.mk (str "ab\n") 1 []).index : Int) →
        ((Node.mk (str "ab\n") 1 []).setIndex 2).index = (Node.mk (str "ab\n") 1 []).textAll.length)
    ∧ (((Node.mk (str "ab\n") 1 []).index : Int) ≤ 2 →
        (((Node.mk (str "ab\n") 1 []).setIndex 2).index : Int) = 2) :=
  c4_index_monotone_clamp (Node.mk (str "ab\n") 1 []) 2 (by decide)

/-- C10 (implicit claim): every constructed node buffer ends with a newline
(the constructor appends one after filtering comment lines), so it is
non-empty; consequently, whenever the position is inside the buffer —
as it is at the `%` branch of the scan loop — `move_index("\n")` finds a
newline and cannot raise the fatal pattern-not-found error. -/
theorem c10_percent_always_finds_newline :
    (∀ raw : Txt, ∃ pre : Txt, (nodeInit raw).textAll = pre ++ ['\n'])
    ∧ (∀ (n : Node) (pre : Txt), n.textAll = pre ++ ['\n'] →
        n.index < n.textAll.length → ∃ n', n.moveIndex ['\n'] = .ok n') := by
  constructor
  · intro raw
    exact ⟨_, rfl⟩
  · intro n pre hends hlt
    have hmem : '\n' ∈ n.textAll.drop n.index := by
      have hle : n.index ≤ pre.length := by
        have : n.textAll.length = pre.length + 1 := by rw [hends]; simp
        omega
      rw [hends, List.drop_append_of_le_length hle]
      simp
    have hfind : strFind n.textAll ['\n'] n.index ≠ -1 := by
      intro h
      exact ((strFind_char_neg_iff n.textAll '\n' n.index).mp h) hmem
    unfold Node.moveIndex
    rw [if_neg hfind]
    exact ⟨_, rfl⟩

theorem c10_witness :
    (∃ pre : Txt, (nodeInit (str "a%b")).textAll = pre ++ ['\n'])
    ∧ (∃ n', (Node.mk (str "x%\n") 1 []).moveIndex ['\n'] = .ok n') :=
  ⟨c10_percent_always_finds_newline.1 (str "a%b"),
   c10_percent_always_finds_newline.2 (Node.mk (str "x%\n") 1 []) (str "x%")
     (by decide) (by decide)⟩

/-- The run of the conversion on the document `\footnote{note}`. -/
def c1run : Res Unit := processRun 5 (str "\\footnote{note}") [] (str ".")

/-- C1 (code bug): on the document `\footnote{note}` the footnote handler
computes the marker and pushes it (the stack has two frames), but the next
statement evaluates `env.source.root`, an attribute class `Source` does not
have, so the conversion aborts with AttributeError; the pushed marker text
is never scanned and the output does not contain `(FOOTNOTE: note)`,
contradicting the claimed behaviour. -/
theorem c1_footnote_aborts :
    resErr? c1run = some (.py .attributeError)
    ∧ containsSub (cleanText (resSt c1run)) (str "(FOOTNOTE: note)") = false
    ∧ (resSt c1run).source.length = 2 := by
  decide

/-- The run on `\input{missing} after` with an empty filesystem. -/
def c2run : Res Unit := processRun 5 (str "\\input{missing} after") [] (str ".")

/-- C2 (code bug): on the document `\input{missing} after` with no file
`missing.tex` available, `_include` reaches the missing-file branch and
evaluates `env.source.root.index += i + 1`; `Source` has no attribute
`root`, so AttributeError aborts the conversion before the
`[FILE NOT FOUND: missing.tex]` marker is appended: the output names no
`missing.tex` and scanning of the following text does not continue,
contradicting the claimed recoverable degradation. -/
theorem c2_missing_include_aborts :
    resErr? c2run = some (.py .attributeError)
    ∧ containsSub (cleanText (resSt c2run)) (str "missing.tex") = false
    ∧ containsSub (cleanText (resSt c2run)) (str "after") = false := by
  decide

/-- The run on the inline-math document `$x+y$`. -/
def c6run1 : Res Unit := processRun 8 (str "$x+y$") [] (str ".")

/-- The run on the display-math document `$$x+y$$ more`. -/
def c6run2 : Res Unit := processRun 8 (str "$$x+y$$ more") [] (str ".")

/-- The run on the unclosed-math document `$x+y`. -/
def c6run3 : Res Unit := processRun 8 (str "$x+y") [] (str ".")

/-- C6: on the input `$x+y$` the math handler replaces the whole formula by
exactly the placeholder `[_]` (the output is the placeholder plus the
constructor's final newline, with no residual `$`); on `$$x+y$$ more` the
display form is recognised by the single character after the opening `$`
and consumed through the matching `$$`; and on the unclosed `$x+y` the
ValueError is caught, scanning continues and the run still completes. -/
theorem c6_math_mode :
    (resOk c6run1 = true ∧ cleanText (resSt c6run1) = str "[_]\n"
      ∧ containsSub (cleanText (resSt c6run1)) (str "$") = false)
    ∧ (resOk c6run2 = true ∧ cleanText (resSt c6run2) = str "[_] more\n")
    ∧ (resOk c6run3 = true ∧ cleanText (resSt c6run3) = str "[_]x+y\n") := by
  decide

/-- Sequencing through a bind whose first computation succeeds. -/
theorem runM_bind_ok {α β : Type} (x : M α) (f : α → M β) (s s2 : St) (a : α)
    (h : runM x s = .ok a s2) : runM (mbind x f) s = runM (f a) s2 := by
  unfold runM at *
  unfold mbind
  rw [h]

/-- Sequencing through a bind whose first computation faults. -/
theorem runM_bind_err {α β : Type} (x : M α) (f : α → M β) (s s2 : St) (e : Fault)
    (h : runM x s = .err e s2) : runM (mbind x f) s = .err e s2 := by
  unfold runM at *
  unfold mbind
  rw [h]

/-- Unfolding one iteration of the main loop when the iteration reports
continuation. -/
theorem mainLoop_step (fuel : Nat) (s s2 : St)
    (h : runM (scanIter fuel) s = .ok true s2) :
    runM (mainLoop (fuel + 1)) s = runM (mainLoop fuel) s2 :=
  runM_bind_ok (scanIter fuel) (fun c => if c then mainLoop fuel else pure ()) s s2 true h

/-- Unfolding the final iteration of the main loop (empty stack). -/
theorem mainLoop_done (fuel : Nat) (s s2 : St)
    (h : runM (scanIter fuel) s = .ok false s2) :
    runM (mainLoop (fuel + 1)) s = .ok () s2 :=
  runM_bind_ok (scanIter fuel) (fun c => if c then mainLoop fuel else pure ()) s s2 false h

/-- The run on a document with one unknown command `\foobar{a}{b}`. -/
def c8run1 : Res Unit := processRun 8 (str "\\foobar{a}{b}") [] (str ".")

/-- The run on a document with the same unknown command twice. -/
def c8run2 : Res Unit := processRun 8 (str "\\foobar{a}{b}\\foobar{a}{b}") [] (str ".")

/-- The initial state of the twice-occurrence run. -/
def st80 : St := initSt (str "\\foobar{a}{b}\\foobar{a}{b}") [] (str ".")

/-- The state after the first iteration (first command consumed). -/
def st81 : St :=
  { source := [Node.mk (str "\\foobar{a}{b}\\foobar{a}{b}\n") 13
      [('\\', 0), ('{', 7), ('}', 9)]],
    cleanFrags := [str ""], aggro := [str "foobar"], command := str "foobar",
    fs := [], folder := str "." }

/-- The state after the second iteration (second command consumed). -/
def st82 : St :=
  { source := [Node.mk (str "\\foobar{a}{b}\\foobar{a}{b}\n") 26
      [('\\', 13), ('{', 20), ('}', 22)]],
    cleanFrags := [str "", str ""], aggro := [str "foobar"], command := str "foobar",
    fs := [], folder := str "." }

/-- The state after the third iteration (frame exhausted and popped). -/
def st83 : St :=
  { source := [], cleanFrags := [str "", str "", str "\n"],
    aggro := [str "foobar"], command := str "foobar", fs := [], folder := str "." }

/-- Unfolding `process_document` through the preamble step. -/
theorem processDocument_eq (fuel : Nat) (s s2 : St)
    (h : runM skipPreamble s = .ok () s2) :
    runM (processDocument fuel) s = runM (mainLoop fuel) s2 :=
  runM_bind_ok skipPreamble (fun _ => mainLoop fuel) s s2 () h

theorem c8run2_eval : c8run2 = .ok () st83 := by
  have hp : runM skipPreamble st80 = .ok () st80 := by decide
  have h1 : runM (scanIter 7) st80 = .ok true st81 := by decide
  have h2 : runM (scanIter 6) st81 = .ok true st82 := by decide
  have h3 : runM (scanIter 5) st82 = .ok true st83 := by decide
  have h4 : runM (scanIter 4) st83 = .ok false st83 := by decide
  calc c8run2 = runM (mainLoop 8) st80 := processDocument_eq 8 st80 st80 hp
    _ = runM (mainLoop 7) st81 := mainLoop_step 7 st80 st81 h1
    _ = runM (mainLoop 6) st82 := mainLoop_step 6 st81 st82 h2
    _ = runM (mainLoop 5) st83 := mainLoop_step 5 st82 st83 h3
    _ = .ok () st83 := mainLoop_done 4 st83 st83 h4

/-- C8: the unknown command `\foobar{a}{b}` leaves no trace of the command
or its bracketed arguments in the output (in both runs the output is just
the constructor's final newline), and the diagnostic set holds `foobar`
exactly once even when the command occurs twice; moreover recording an
already-recorded unknown name never adds a second entry. -/
theorem c8_unknown_command :
    (resOk c8run1 = true ∧ cleanText (resSt c8run1) = str "\n"
      ∧ (resSt c8run1).aggro = [str "foobar"])
    ∧ (resOk c8run2 = true ∧ cleanText (resSt c8run2) = str "\n"
      ∧ (resSt c8run2).aggro = [str "foobar"])
    ∧ ∀ (l : List Txt) (x : Txt), aggroInsert (aggroInsert l x) x = aggroInsert l x := by
  refine ⟨by decide, ?_, ?_⟩
  · rw [c8run2_eval]
    decide
  · intro l x
    by_cases hm : x ∈ l <;> simp [aggroInsert, hm]

def keysOf {β : Type} (tab : List (Txt × β)) : List Txt := tab.map (fun p => p.1)

/-- The spec's resolution priority order: override no-op set, override
command map, built-in no-op set, built-in command map, else the generic
fallback. -/
def specResolve (cmd : Txt) : DispatchR :=
  if void_c.contains cmd then .noop
  else
    match lookupTab dic_commands_c cmd with
    | some h => .run h
    | none =>
      if void.contains cmd then .noop
      else
        match lookupTab dic_commands cmd with
        | some h => .run h
        | none => .fallthrough

/-- The spec's precondition: no command name is active in more than one of
the four rule categories. -/
def tablesDisjoint : Bool :=
  (void_c.all fun n =>
    !(keysOf dic_commands_c).contains n && !void.contains n
      && !(keysOf dic_commands).contains n)
  && ((keysOf dic_commands_c).all fun n =>
       !void.contains n && !(keysOf dic_commands).contains n)
  && (void.all fun n => !(keysOf dic_commands).contains n)

theorem lookupTab_mem_keys {β : Type} (tab : List (Txt × β)) (k : Txt) (b : β)
    (h : lookupTab tab k = some b) : k ∈ keysOf tab := by
  induction tab with
  | nil => exact absurd h (by simp [lookupTab])
  | cons p rest ih =>
    obtain ⟨a, v⟩ := p
    simp only [lookupTab] at h
    by_cases he : a = k
    · subst he
      exact List.mem_cons_self _ _
    · rw [if_neg he] at h
      exact List.mem_cons_of_mem _ (ih h)

/-- C7: under the precondition that no command name belongs to more than
one of the four rule categories, the resolution chain of `interpret`
(`codeResolve`) agrees with resolving in the spec's priority order
override-no-op, override-map, built-in-no-op, built-in-map
(`specResolve`), and it falls through to the generic bracket-skip
fallback exactly when the name matches none of the four categories. -/
theorem c7_dispatch_priority (cmd : Txt) (hd : tablesDisjoint = true)
    (_hne : cmd ≠ []) :
    codeResolve cmd = specResolve cmd
    ∧ (codeResolve cmd = .fallthrough ↔
        void_c.contains cmd = false ∧ lookupTab dic_commands_c cmd = none
        ∧ void.contains cmd = false ∧ lookupTab dic_commands cmd = none) := by
  have hCA : ∀ b : HId, lookupTab dic_commands_c cmd = some b →
      void.contains cmd = false := by
    intro b hb
    have hmem := lookupTab_mem_keys _ _ _ hb
    simp only [tablesDisjoint, Bool.and_eq_true, List.all_eq_true] at hd
    have h2 := hd.1.2 cmd hmem
    simp only [Bool.and_eq_true, Bool.not_eq_true'] at h2
    exact h2.1
  rcases hc : lookupTab dic_commands_c cmd with _ | hcb <;>
    rcases hb : lookupTab dic_commands cmd with _ | hbb <;>
    by_cases hvc : void_c.contains cmd = true <;>
    by_cases hv : void.contains cmd = true <;>
    simp_all [codeResolve, specResolve]

theorem c7_witness :
    codeResolve (str "citep") = specResolve (str "citep")
    ∧ (codeResolve (str "citep") = .fallthrough ↔
        void_c.contains (str "citep") = false
        ∧ lookupTab dic_commands_c (str "citep") = none
        ∧ void.contains (str "citep") = false
        ∧ lookupTab dic_commands (str "citep") = none) :=
  c7_dispatch_priority (str "citep") (by decide) (by decide)

/-- Sequencing through a bind of `mget`. -/
theorem runM_bind_mget {β : Type} (f : St → M β) (s : St) :
    runM (mbind mget f) s = runM (f s) s := rfl

/-- A document with an unknown command whose opening brace is never
closed. -/
def badDoc : Txt := str "\\foobar\x7bx"

/-- The initial state of the run on `badDoc`. -/
def badSt0 : St := initSt badDoc [] (str ".")

/-- The state after the first `scanPre` of that run (about to dispatch the
backslash). -/
def badSt1 : St :=
  { source := [Node.mk (str "\\foobar\x7bx\n") 0 [('\\', 0), ('{', 7)]],
    cleanFrags := [str ""], aggro := [], command := str "",
    fs := [], folder := str "." }

/-- The state in which the generic fallback loops forever: the command
name has been extracted and the cursor stands on the unmatched `{`. -/
def stStuck : St :=
  { source := [Node.mk (str "\\foobar\x7bx\n") 7 [('\\', 0), ('{', 7)]],
    cleanFrags := [str ""], aggro := [], command := str "foobar",
    fs := [], folder := str "." }

/-- On the stuck state the generic fallback advances zero characters
(the inner brace search finds no closing brace, so `j + 1 = 0`), leaving
the state unchanged: the fallback loop can only end by fuel exhaustion. -/
theorem fallbackLoop_stuck (j : Nat) :
    runM (fallbackLoop j) stStuck = .err .fuel stStuck := by
  induction j with
  | zero => rfl
  | succ j ih =>
    have h2 : runM (srcIndexAdd (fallbackSkipCurly (str "\x7bx\n"))) stStuck =
        .ok () stStuck := by decide
    calc runM (fallbackLoop (j + 1)) stStuck
        = runM (mbind (srcIndexAdd (fallbackSkipCurly (str "\x7bx\n")))
            (fun _ => fallbackLoop j)) stStuck :=
          runM_bind_ok srcTextM _ stStuck stStuck (str "\x7bx\n") (by decide)
      _ = runM (fallbackLoop j) stStuck :=
          runM_bind_ok _ (fun _ => fallbackLoop j) stStuck stStuck () h2
      _ = .err .fuel stStuck := ih

/-- `interpret` on the stuck state enters the generic fallback and
inherits its nontermination. -/
theorem interpretCmd_stuck (fuel : Nat) :
    runM (interpretCmd fuel) stStuck = .err .fuel stStuck := by
  have h1 : runM (interpretCmd fuel) stStuck =
      runM (mbind (fallbackLoop fuel) (fun _ => aggroAdd stStuck.command)) stStuck :=
    runM_bind_mget _ stStuck
  rw [h1]
  exact runM_bind_err _ _ _ _ _ (fallbackLoop_stuck fuel)

/-- `handle_command` on the freshly-dispatched state extracts `foobar`,
advances to the brace and then hangs in the fallback. -/
theorem handleCommand_stuck (fuel : Nat) :
    runM (handleCommand fuel) badSt1 = .err .fuel stStuck := by
  have h1 : runM (handleCommand fuel) badSt1 = runM (interpretCmd fuel) stStuck :=
    runM_bind_ok handleCommandPre _ badSt1 stStuck (some 7) (by decide)
  rw [h1, interpretCmd_stuck]

/-- One whole iteration of the scan loop on the bad document hangs. -/
theorem scanIter_stuck (fuel : Nat) :
    runM (scanIter fuel) badSt0 = .err .fuel stStuck := by
  have h1 : runM (scanIter fuel) badSt0 =
      runM (mbind (dispatchChar fuel '\\') (fun _ => pure true)) badSt1 :=
    runM_bind_ok scanPre _ badSt0 badSt1 (.dispatch '\\') (by decide)
  rw [h1]
  have h2 : runM (dispatchChar fuel '\\') badSt1 = .err .fuel stStuck :=
    handleCommand_stuck fuel
  exact runM_bind_err _ _ _ _ _ h2

theorem mainLoop_stuck (fuel : Nat) :
    runM (mainLoop (fuel + 1)) badSt0 = .err .fuel stStuck :=
  runM_bind_err (scanIter fuel) (fun c => if c then mainLoop fuel else pure ())
    badSt0 stStuck .fuel (scanIter_stuck fuel)

/-- The run on `raw` never terminates: for every fuel bound the conversion
ends in fuel exhaustion, not in normal completion and not in a raised
exception. -/
def divergesOn (raw : Txt) : Prop :=
  ∀ fuel, resErr? (processRun fuel raw [] (str ".")) = some .fuel

/-- C9 (code bug): the document `\foobar\x7bx` — an unknown command whose
opening brace is never closed — pushes no inclusion frame, yet the main
scan loop never terminates: the generic bracket-skip fallback computes
`find("}", 1) + 1 = 0`, advances the cursor by zero characters, and spins
forever, so the conversion neither completes nor fails synchronously,
contradicting the claimed termination (the claim and the source's own
stated intent of preventing infinite loops are the correct behaviour; the
zero-advance loop is the defect). -/
theorem c9_unmatched_brace_loops_forever : divergesOn badDoc := by
  intro fuel
  match fuel with
  | 0 => decide
  | fuel + 1 =>
    have hp : runM skipPreamble badSt0 = .ok () badSt0 := by decide
    have h1 : processRun (fuel + 1) badDoc [] (str ".") = .err .fuel stStuck :=
      calc processRun (fuel + 1) badDoc [] (str ".")
          = runM (mainLoop (fuel + 1)) badSt0 :=
            processDocument_eq (fuel + 1) badSt0 badSt0 hp
        _ = .err .fuel stStuck := mainLoop_stuck fuel
    rw [h1]
    rfl

theorem get?_append_left {α : Type} (l₁ l₂ : List α) (n : Nat) (h : n < l₁.length) :
    (l₁ ++ l₂).get? n = l₁.get? n := by
  induction l₁ generalizing n with
  | nil => simp at h
  | cons x t ih =>
    cases n with
    | zero => rfl
    | succ n => simpa using ih n (by simpa using h)

theorem get?_append_right2 {α : Type} (l₁ l₂ : List α) (n : Nat) (h : l₁.length ≤ n) :
    (l₁ ++ l₂).get? n = l₂.get? (n - l₁.length) := by
  induction l₁ generalizing n with
  | nil => simp
  | cons x t ih =>
    cases n with
    | zero => simp at h
    | succ n => simpa [Nat.succ_sub_succ] using ih n (by simpa using h)

theorem get?_replicate2 {α : Type} (a : α) (N n : Nat) (h : n < N) :
    (List.replicate N a).get? n = some a := by
  rw [List.get?_eq_getElem?, List.getElem?_replicate_of_lt h]

theorem get?_mem2 {α : Type} (l : List α) (n : Nat) (a : α) (h : l.get? n = some a) :
    a ∈ l := by
  induction l generalizing n with
  | nil => simp at h
  | cons x t ih =>
    cases n with
    | zero =>
      simp only [List.get?_cons_zero, Option.some.injEq] at h
      simp [h]
    | succ n =>
      simp only [List.get?_cons_succ] at h
      exact List.mem_cons_of_mem _ (ih n h)

/-- A depth-N same-type bracket nest followed by arbitrary text: N opening
brackets, a bracket-free body, N closing brackets, then the rest of the
buffer. -/
def nestTxt (o c : Char) (N : Nat) (w rest : Txt) : Txt :=
  List.replicate N o ++ w ++ List.replicate N c ++ rest

theorem nestTxt_get_open (o c : Char) (N : Nat) (w rest : Txt) (m : Nat)
    (h : m < N) : (nestTxt o c N w rest).get? m = some o := by
  unfold nestTxt
  rw [get?_append_left _ _ m (by simp; omega)]
  rw [get?_append_left _ _ m (by simp; omega)]
  rw [get?_append_left _ _ m (by simp; omega)]
  exact get?_replicate2 o N m h

theorem nestTxt_get_body (o c : Char) (N : Nat) (w rest : Txt) (m : Nat)
    (h1 : N ≤ m) (h2 : m < N + w.length) :
    (nestTxt o c N w rest).get? m = w.get? (m - N) := by
  unfold nestTxt
  rw [get?_append_left _ _ m (by simp; omega)]
  rw [get?_append_left _ _ m (by simp; omega)]
  rw [get?_append_right2 _ _ m (by simpa using h1)]
  congr 1
  simp

theorem nestTxt_get_close (o c : Char) (N : Nat) (w rest : Txt) (k : Nat)
    (h : k < N) : (nestTxt o c N w rest).get? (N + w.length + k) = some c := by
  unfold nestTxt
  rw [get?_append_left _ _ _ (by simp; omega)]
  rw [get?_append_right2 _ _ _ (by simp)]
  have he : N + w.length + k - (List.replicate N o ++ w).length = k := by
    simp
  rw [he]
  exact get?_replicate2 c N k h

theorem nestTxt_no_open_after (o c : Char) (hoc : o ≠ c) (N : Nat)
    (w rest : Txt) (hw : ∀ ch ∈ w, ch ≠ o ∧ ch ≠ c) (m : Nat)
    (h1 : N ≤ m) (h2 : m < N + w.length + N) :
    (nestTxt o c N w rest).get? m ≠ some o := by
  by_cases hb : m < N + w.length
  · rw [nestTxt_get_body o c N w rest m h1 hb]
    cases hg : w.get? (m - N) with
    | none => simp
    | some ch =>
      have := (hw ch (get?_mem2 w _ ch hg)).1
      simp [this]
  · have hk : m = N + w.length + (m - (N + w.length)) := by omega
    rw [hk, nestTxt_get_close o c N w rest _ (by omega)]
    simp [Ne.symm hoc]

theorem nestTxt_no_close_before (o c : Char) (hoc : o ≠ c) (N : Nat)
    (w rest : Txt) (hw : ∀ ch ∈ w, ch ≠ o ∧ ch ≠ c) (m : Nat)
    (h2 : m < N + w.length) :
    (nestTxt o c N w rest).get? m ≠ some c := by
  by_cases hb : m < N
  · rw [nestTxt_get_open o c N w rest m hb]
    simp [hoc]
  · rw [nestTxt_get_body o c N w rest m (by omega) h2]
    cases hg : w.get? (m - N) with
    | none => simp
    | some ch =>
      have := (hw ch (get?_mem2 w _ ch hg)).2
      simp [this]

theorem nestTxt_find_close_one (o c : Char) (hoc : o ≠ c) (N : Nat) (hN : 1 ≤ N)
    (w rest : Txt) (hw : ∀ ch ∈ w, ch ≠ o ∧ ch ≠ c) :
    strFind (nestTxt o c N w rest) [c] 1 = ((N + w.length : Nat) : Int) := by
  have hc : strFind (nestTxt o c N w rest) [c] 1 =
      strFind (nestTxt o c N w rest) [c] (1 + (N + w.length - 1)) := by
    apply strFind_char_congr
    intro m hm1 hm2
    exact nestTxt_no_close_before o c hoc N w rest hw m (by omega)
  rw [hc, show 1 + (N + w.length - 1) = N + w.length + 0 from by omega]
  exact strFind_char_at _ c _ (nestTxt_get_close o c N w rest 0 (by omega))

theorem nestTxt_find_open_at (o c : Char) (N : Nat) (w rest : Txt) (m : Nat)
    (h : m < N) : strFind (nestTxt o c N w rest) [o] m = (m : Int) :=
  strFind_char_at _ o m (nestTxt_get_open o c N w rest m h)

theorem nestTxt_find_open_N (o c : Char) (hoc : o ≠ c) (N : Nat)
    (w rest : Txt) (hw : ∀ ch ∈ w, ch ≠ o ∧ ch ≠ c) :
    strFind (nestTxt o c N w rest) [o] N = -1
    ∨ ((N + w.length + N : Nat) : Int) ≤ strFind (nestTxt o c N w rest) [o] N := by
  have hc : strFind (nestTxt o c N w rest) [o] N =
      strFind (nestTxt o c N w rest) [o] (N + (w.length + N)) := by
    apply strFind_char_congr
    intro m hm1 hm2
    exact nestTxt_no_open_after o c hoc N w rest hw m hm1 (by omega)
  rw [hc]
  rcases strFind_char_ge (nestTxt o c N w rest) o (N + (w.length + N)) with h | h
  · left; exact h
  · right
    calc ((N + w.length + N : Nat) : Int) = ((N + (w.length + N) : Nat) : Int) := by
          push_cast; ring
      _ ≤ _ := h

theorem braceInner_nest (o c : Char) (hoc : o ≠ c) (N : Nat) (hN : 1 ≤ N)
    (w rest : Txt) (hw : ∀ ch ∈ w, ch ≠ o ∧ ch ≠ c) :
    ∀ fuel k, k < N → N - k ≤ fuel →
      braceInner (nestTxt o c N w rest) o c fuel
        (if k + 1 < N then ((k + 1 : Nat) : Int)
         else strFind (nestTxt o c N w rest) [o] N)
        ((N + w.length + k : Nat) : Int)
      = ((N + w.length + N - 1 : Nat) : Int) := by
  intro fuel
  induction fuel with
  | zero => intro k hk hf; omega
  | succ fuel ih =>
    intro k hk hf
    by_cases hkN : k + 1 < N
    · rw [if_pos hkN]
      simp only [braceInner]
      have hg : (0 : Int) < ((k + 1 : Nat) : Int) ∧
          ((k + 1 : Nat) : Int) < ((N + w.length + k : Nat) : Int) := by
        constructor <;> omega
      rw [if_pos hg]
      have e1 : ((k + 1 : Nat) : Int).toNat + 1 = k + 2 := by omega
      have e2 : ((N + w.length + k : Nat) : Int).toNat + 1 = N + w.length + (k + 1) := by
        omega
      rw [e1, e2]
      have e3 : strFind (nestTxt o c N w rest) [c] (N + w.length + (k + 1))
          = ((N + w.length + (k + 1) : Nat) : Int) :=
        strFind_char_at _ c _ (nestTxt_get_close o c N w rest (k + 1) (by omega))
      have e4 : strFind (nestTxt o c N w rest) [o] (k + 2)
          = (if (k + 1) + 1 < N then ((k + 1 + 1 : Nat) : Int)
             else strFind (nestTxt o c N w rest) [o] N) := by
        by_cases h2 : k + 2 < N
        · rw [if_pos (by omega)]
          exact nestTxt_find_open_at o c N w rest (k + 2) h2
        · rw [if_neg (by omega)]
          have he : k + 2 = N := by omega
          rw [he]
      rw [e3, e4]
      exact ih (k + 1) (by omega) (by omega)
    · rw [if_neg hkN]
      simp only [braceInner]
      have hg2 : ¬((0 : Int) < strFind (nestTxt o c N w rest) [o] N ∧
          strFind (nestTxt o c N w rest) [o] N < ((N + w.length + k : Nat) : Int)) := by
        rcases nestTxt_find_open_N o c hoc N w rest hw with h | h
        · rw [h]
          rintro ⟨h1, _⟩
          omega
        · rintro ⟨_, h2⟩
          omega
      rw [if_neg hg2]
      omega

theorem fallbackSkip_nest (o c : Char) (hoc : o ≠ c) (N : Nat) (hN : 1 ≤ N)
    (w rest : Txt) (hw : ∀ ch ∈ w, ch ≠ o ∧ ch ≠ c) :
    braceInner (nestTxt o c N w rest) o c ((nestTxt o c N w rest).length + 1)
        (strFind (nestTxt o c N w rest) [o] 1) (strFind (nestTxt o c N w rest) [c] 1)
      + 1 = ((2 * N + w.length : Nat) : Int) := by
  have hIND := braceInner_nest o c hoc N hN w rest hw
      ((nestTxt o c N w rest).length + 1) 0 (by omega)
      (by simp [nestTxt]; omega)
  have hi : strFind (nestTxt o c N w rest) [o] 1
      = (if 0 + 1 < N then ((0 + 1 : Nat) : Int)
         else strFind (nestTxt o c N w rest) [o] N) := by
    by_cases h2 : 1 < N
    · rw [if_pos (by omega)]
      exact nestTxt_find_open_at o c N w rest 1 h2
    · rw [if_neg (by omega)]
      have he : N = 1 := by omega
      rw [he]
  have hj : strFind (nestTxt o c N w rest) [c] 1 = ((N + w.length + 0 : Nat) : Int) := by
    rw [nestTxt_find_close_one o c hoc N hN w rest hw]
    omega
  rw [hi, hj, hIND]
  omega

/-- C3: for every unrecognized command immediately followed by a depth-N
nest of same-type brackets (an opening run of N brackets, a bracket-free
body, the N matching closing brackets) with arbitrary following text, the
generic bracket-skip fallback advances the cursor by exactly the length
of the whole nest — one position past the outermost matching closing
bracket — for every N ≥ 1 and for both bracket families; the inner
same-type brackets never terminate the skip early. -/
theorem c3_fallback_skip_depth (N : Nat) (hN : 1 ≤ N) (w rest : Txt)
    (hwc : ∀ ch ∈ w, ch ≠ '{' ∧ ch ≠ '}')
    (hws : ∀ ch ∈ w, ch ≠ '[' ∧ ch ≠ ']') :
    fallbackSkipCurly (nestTxt '{' '}' N w rest) = ((2 * N + w.length : Nat) : Int)
    ∧ fallbackSkipSquare (nestTxt '[' ']' N w rest) = ((2 * N + w.length : Nat) : Int) :=
  ⟨fallbackSkip_nest '{' '}' (by decide) N hN w rest hwc,
   fallbackSkip_nest '[' ']' (by decide) N hN w rest hws⟩

theorem c3_witness :
    fallbackSkipCurly (nestTxt '{' '}' 2 (str "a") (str "z"))
        = ((2 * 2 + (str "a").length : Nat) : Int)
    ∧ fallbackSkipSquare (nestTxt '[' ']' 2 (str "a") (str "z"))
        = ((2 * 2 + (str "a").length : Nat) : Int) :=
  c3_fallback_skip_depth 2 (by decide) (str "a") (str "z") (by decide) (by decide)

theorem get?_drop2 {α : Type} (l : List α) (i j : Nat) :
    (l.drop i).get? j = l.get? (i + j) := by
  induction l generalizing i with
  | nil => simp
  | cons x t ih =>
    cases i with
    | zero => simp
    | succ i => simpa [Nat.succ_add] using ih i

/-- When no cached symbol still occurs in the unread text, the refresh
loop of `inter` drops every entry (given the cache soundness invariant:
every entry is stale or points at a true occurrence). -/
theorem interUpdate_nil (full : Txt) (idx : Nat) (syms : List (Char × Int))
    (hsound : ∀ p ∈ syms, p.2 < (idx : Int) ∨
        (0 ≤ p.2 ∧ full.get? p.2.toNat = some p.1))
    (hnone : ∀ p ∈ syms, p.1 ∉ full.drop idx) :
    interUpdate full idx syms = [] := by
  induction syms with
  | nil => rfl
  | cons p rest ih =>
    obtain ⟨ch, v⟩ := p
    have hno : ch ∉ full.drop idx := hnone (ch, v) (List.mem_cons_self _ _)
    have hv : v < (idx : Int) := by
      rcases hsound (ch, v) (List.mem_cons_self _ _) with h | ⟨h0, hocc⟩
      · exact h
      · by_contra hlt
        push_neg at hlt
        apply hno
        apply get?_mem2 (full.drop idx) (v.toNat - idx) ch
        rw [get?_drop2]
        rw [show idx + (v.toNat - idx) = v.toNat from by omega]
        exact hocc
    simp only [interUpdate]
    rw [if_pos hv, if_neg (by simpa using hno)]
    exact ih (fun q hq => hsound q (List.mem_cons_of_mem _ hq))
      (fun q hq => hnone q (List.mem_cons_of_mem _ hq))

/-- C5: for every node whose unread text contains none of the six tracked
special characters (with the cache invariants every reachable node
satisfies: cached keys are tracked characters, and every cached entry is
either stale or points at a true occurrence), the `inter` lookahead
returns the -1 sentinel; and the scan loop iteration on such a head then
appends the entire remaining text verbatim to the output accumulator and
pops the frame, leaving every other component of the state unchanged. -/
theorem c5_no_special_appends_and_pops (n : Node) (rest : List Node)
    (frags ag : List Txt) (cmd : Txt) (fs : List (Txt × Txt)) (fld : Txt)
    (fuel : Nat)
    (hkeys : ∀ p ∈ n.symbols, p.1 ∈ specials)
    (hsound : ∀ p ∈ n.symbols, p.2 < (n.index : Int) ∨
        (0 ≤ p.2 ∧ n.textAll.get? p.2.toNat = some p.1))
    (hnone : ∀ ch ∈ specials, ch ∉ n.textAll.drop n.index) :
    (n.inter).1 = -1
    ∧ runM (scanIter fuel) (St.mk (n :: rest) frags ag cmd fs fld)
        = .ok true (St.mk rest (frags ++ [n.text]) ag cmd fs fld) := by
  have hupd : interUpdate n.textAll n.index n.symbols = [] :=
    interUpdate_nil n.textAll n.index n.symbols hsound
      (fun p hp => hnone p.1 (hkeys p hp))
  have hInter : n.inter = (-1, Node.mk n.textAll n.index []) := by
    simp only [Node.inter]
    rw [hupd]
  have hsi : runM srcInterM (St.mk (n :: rest) frags ag cmd fs fld)
      = .ok (-1) (St.mk (Node.mk n.textAll n.index [] :: rest) frags ag cmd fs fld) := by
    have h0 : runM srcInterM (St.mk (n :: rest) frags ag cmd fs fld)
        = .ok (n.inter).1 (St.mk ((n.inter).2 :: rest) frags ag cmd fs fld) := rfl
    rw [h0, hInter]
  have hPre : runM scanPre (St.mk (n :: rest) frags ag cmd fs fld)
      = .ok .popped (St.mk rest (frags ++ [n.text]) ag cmd fs fld) := by
    have hA : runM scanPre (St.mk (n :: rest) frags ag cmd fs fld)
        = runM (mbind srcInterM scanPreCont) (St.mk (n :: rest) frags ag cmd fs fld) := rfl
    rw [hA, runM_bind_ok srcInterM scanPreCont _ _ (-1) hsi]
    exact rfl
  constructor
  · rw [hInter]
  · exact (runM_bind_ok scanPre (scanIterCont fuel) _ _ .popped hPre).trans rfl

theorem c5_witness :
    ((Node.mk (str "ab\n") 0 (specials.map (fun ch => (ch, -1)))).inter).1 = -1
    ∧ runM (scanIter 3)
        (St.mk [Node.mk (str "ab\n") 0 (specials.map (fun ch => (ch, -1)))]
          [] [] [] [] (str "."))
      = .ok true
          (St.mk [] [(Node.mk (str "ab\n") 0 (specials.map (fun ch => (ch, -1)))).text]
            [] [] [] (str ".")) :=
  c5_no_special_appends_and_pops
    (Node.mk (str "ab\n") 0 (specials.map (fun ch => (ch, -1))))
    [] [] [] [] [] (str ".") 3 (by decide) (by decide) (by decide)
